import Mathlib

/-!
Verification of the virtual workspace / execution-gateway model of the
browser IDE repository.  The definitions below are shallow embeddings of
the TypeScript source (`src/services/codeExecutor.ts` — the
`WorkspaceService` class and the `executeCode` / `executeJavaScript`
functions —, `src/components/IDE/FileExplorer.tsx` and the IDE page's
tab handling).  JavaScript strings are modelled as Lean `String`
(with helpers over `List Char` mirroring the exact JS semantics of
`split`, `substring`, `lastIndexOf`, truthiness of `""`, etc.).
-/

namespace StrikeIDE

/-! ### JavaScript string primitives -/

/-- The ASCII part of the JavaScript `\s` (whitespace) character class.
JS additionally matches some Unicode spaces; all source inputs here are
ASCII. -/
def isJsWS (c : Char) : Bool :=
  c = ' ' || c = '\t' || c = '\n' || c = '\r' || c = '\x0b' || c = '\x0c'

/-- JS `String.prototype.split` with a single-character separator:
keeps empty segments, always returns at least one segment. -/
def splitChar (sep : Char) : List Char → List (List Char)
  | [] => [[]]
  | c :: rest =>
    match splitChar sep rest with
    | [] => [[]]
    | seg :: segs => if c = sep then [] :: seg :: segs else (c :: seg) :: segs

/-- Last element of a list of segments (JS `arr.pop()` on the non-empty
result of `split`), defaulting to the empty segment. -/
def lastSegD : List (List Char) → List Char
  | [] => []
  | [s] => s
  | _ :: rest => lastSegD rest

/-- JS `String.prototype.toLowerCase` (ASCII). -/
def jsToLower (s : String) : String := String.mk (s.data.map Char.toLower)

/-- Index of the last occurrence of `c`, as in JS `lastIndexOf`:
`-1` when absent. -/
def lastIdxAux (c : Char) : List Char → Option Nat
  | [] => none
  | a :: as =>
    match lastIdxAux c as with
    | some i => some (i + 1)
    | none => if a = c then some 0 else none

/-- JS `s.lastIndexOf(c)`. -/
def jsLastIndexOf (s : String) (c : Char) : Int :=
  match lastIdxAux c s.data with
  | some n => (n : Int)
  | none => -1

/-- JS `s.substring(0, e)`; a negative `e` is clamped to `0`. -/
def jsSubstringTo (s : String) (e : Int) : String :=
  String.mk (s.data.take e.toNat)

/-- Does `pat` occur as a contiguous run inside `s`?  (JS
`String.prototype.includes`.) -/
def containsSub (pat : List Char) : List Char → Bool
  | [] => pat.isEmpty
  | c :: rest => pat.isPrefixOf (c :: rest) || containsSub pat rest

/-- JS `String.prototype.trim` (ASCII whitespace). -/
def jsTrimChars (l : List Char) : List Char :=
  ((l.dropWhile isJsWS).reverse.dropWhile isJsWS).reverse

def jsTrim (s : String) : String := String.mk (jsTrimChars s.data)

/-! ### Language table

`getLanguageFromExtension` appears with an identical body both as a
private method of `WorkspaceService` (codeExecutor.ts) and in
`utils/fileUtils.ts` (the copy used by `FileExplorer`); it is defined
once here. -/

inductive CompilerLanguage where
  | c
  | cpp
  | java
  | javascript
  | python
deriving DecidableEq, Repr

/-- `filename.split('.').pop()?.toLowerCase()` — the extension string
consulted by the language table (and by the FileExplorer validation). -/
def jsFileExt (filename : String) : String :=
  jsToLower (String.mk (lastSegD (splitChar '.' filename.data)))

/-- WorkspaceService.getLanguageFromExtension / fileUtils.getLanguageFromExtension. -/
def getLanguageFromExtension (filename : String) : CompilerLanguage :=
  match jsFileExt filename with
  | "c" => .c
  | "cpp" => .cpp
  | "cc" => .cpp
  | "cxx" => .cpp
  | "java" => .java
  | "js" => .javascript
  | "mjs" => .javascript
  | "py" => .python
  | _ => .cpp

/-- DEFAULT_CODE table of workspaceService (braces written as escapes). -/
def DEFAULT_CODE : CompilerLanguage → String
  | .c => "#include <stdio.h>\n\nint main() \x7b\n    printf(\"Hello, World!\\n\");\n    return 0;\n\x7d"
  | .cpp => "#include <iostream>\r\nusing namespace std;\r\n\r\nint main() \x7b\r\n    cout << \"Hello, World!\" << endl;\r\n    return 0;\r\n\x7d"
  | .java => "public class Main \x7b\r\n    public static void main(String[] args) \x7b\r\n        System.out.println(\"Hello, World!\");\r\n    \x7d\r\n\x7d"
  | .javascript => "console.log(\"Hello, World!\");"
  | .python => "print(\"Hello, World!\")"

/-! ### Workspace tree model -/

/-- VFile of workspaceService. -/
structure VFileData where
  id : String
  name : String
  path : String
  language : CompilerLanguage
  content : String
  isSaved : Bool
deriving DecidableEq, Repr

/-- A tree node: VFile | VFolder.  The folder fields are, in order,
`id`, `name`, `path`, `children`. -/
inductive VNode where
  | file : VFileData → VNode
  | folder : String → String → String → List VNode → VNode

def nodePath : VNode → String
  | .file f => f.path
  | .folder _ _ p _ => p

def nodeName : VNode → String
  | .file f => f.name
  | .folder _ n _ _ => n

/-- VFolder of workspaceService (used for the root and for
`findParentFolder` results). -/
structure VFolderData where
  id : String
  name : String
  path : String
  children : List VNode

def VFolderData.toNode (d : VFolderData) : VNode :=
  .folder d.id d.name d.path d.children

/-- Workspace of workspaceService: `{ root: VFolder }`. -/
structure Workspace where
  root : VFolderData

/-! `findItemByPath(path, root)`: checks `root.path` first, then walks
the children in order; for each child it compares `child.path` and, for
folders, recurses (the recursive call re-checks the child's own path). -/

mutual

def findNode (p : String) : VNode → Option VNode
  | .file _ => none
  | .folder i n fp cs =>
    if fp = p then some (.folder i n fp cs) else findList p cs

def findList (p : String) : List VNode → Option VNode
  | [] => none
  | c :: rest =>
    if nodePath c = p then some c
    else
      match c with
      | .file _ => findList p rest
      | .folder i n fp cs =>
        match findNode p (.folder i n fp cs) with
        | some r => some r
        | none => findList p rest

end

/-- WorkspaceService.findItemByPath with the default root argument. -/
def findItemByPath (p : String) (w : Workspace) : Option VNode :=
  findNode p w.root.toNode

/-- `path.substring(0, path.lastIndexOf('/')) || '/'` — the parent path
used by `findParentFolder`. -/
def parentPathOf (path : String) : String :=
  let sub := jsSubstringTo path (jsLastIndexOf path '/')
  if sub = "" then "/" else sub

/-- WorkspaceService.findParentFolder. -/
def findParentFolder (path : String) (w : Workspace) : Option VFolderData :=
  match findItemByPath (parentPathOf path) w with
  | some (.folder i n fp cs) => some ⟨i, n, fp, cs⟩
  | _ => none

/-! `getAllFiles`: depth-first collection of every file of a folder. -/

mutual

def getAllFilesN : VNode → List VFileData
  | .file f => [f]
  | .folder _ _ _ cs => getAllFilesL cs

def getAllFilesL : List VNode → List VFileData
  | [] => []
  | c :: rest => getAllFilesN c ++ getAllFilesL rest

end

/-- WorkspaceService.getAllFiles with the default (root) argument. -/
def getAllFiles (w : Workspace) : List VFileData :=
  getAllFilesL w.root.children

/-! The mutation primitive.  The TypeScript operations find a node with
`findItemByPath` and then mutate that object in place; the functional
counterpart rebuilds the tree with `g` applied at the first node the
search finds (same traversal order as `findNode`/`findList`). -/

mutual

def updNode (p : String) (g : VNode → VNode) : VNode → Option VNode
  | .file _ => none
  | .folder i n fp cs =>
    if fp = p then some (g (.folder i n fp cs))
    else
      match updList p g cs with
      | some cs' => some (.folder i n fp cs')
      | none => none

def updList (p : String) (g : VNode → VNode) : List VNode → Option (List VNode)
  | [] => none
  | c :: rest =>
    if nodePath c = p then some (g c :: rest)
    else
      match c with
      | .file _ =>
        match updList p g rest with
        | some rest' => some (c :: rest')
        | none => none
      | .folder i n fp cs =>
        match updNode p g (.folder i n fp cs) with
        | some c' => some (c' :: rest)
        | none =>
          match updList p g rest with
          | some rest' => some (.folder i n fp cs :: rest')
          | none => none

end

/-- Apply `g` at the first node found at path `p` (no-op when the path
does not resolve; the operations below only reach it after a successful
lookup). -/
def applyUpd (p : String) (g : VNode → VNode) (w : Workspace) : Workspace :=
  match updNode p g w.root.toNode with
  | some (.folder i n fp cs) => ⟨⟨i, n, fp, cs⟩⟩
  | _ => w

/-! ### Workspace operations -/

/-- Outcome of an operation that may `throw`. -/
inductive OpOutcome (α : Type) where
  | threw : String → OpOutcome α
  | ret : α → OpOutcome α
deriving DecidableEq, Repr

/-- `parent.children.push(newChild)`. -/
def pushChild (child : VNode) : VNode → VNode
  | .folder i n fp cs => .folder i n fp (cs ++ [child])
  | n => n

/-- WorkspaceService.createFile.  `generateId` is time/random based in
the source and is passed in as `newId`. -/
def createFile (w : Workspace) (parentPath name : String)
    (language : Option CompilerLanguage) (newId : String) :
    OpOutcome (Option VFileData) × Workspace :=
  match findItemByPath parentPath w with
  | some (.folder _ _ _ cs) =>
    if cs.any (fun c => nodeName c == name) then
      (.threw ("File \"" ++ name ++ "\" already exists in this folder"), w)
    else
      let filePath := if parentPath = "/" then "/" ++ name else parentPath ++ "/" ++ name
      let fileLanguage := language.getD (getLanguageFromExtension name)
      let newFile : VFileData :=
        ⟨newId, name, filePath, fileLanguage, DEFAULT_CODE fileLanguage, false⟩
      (.ret (some newFile), applyUpd parentPath (pushChild (.file newFile)) w)
  | _ => (.ret none, w)

/-- WorkspaceService.createFolder. -/
def createFolder (w : Workspace) (parentPath name : String) (newId : String) :
    OpOutcome (Option VFolderData) × Workspace :=
  match findItemByPath parentPath w with
  | some (.folder _ _ _ cs) =>
    if cs.any (fun c => nodeName c == name) then
      (.threw ("Folder \"" ++ name ++ "\" already exists in this folder"), w)
    else
      let folderPath := if parentPath = "/" then "/" ++ name else parentPath ++ "/" ++ name
      let newFolder : VFolderData := ⟨newId, name, folderPath, []⟩
      (.ret (some newFolder), applyUpd parentPath (pushChild newFolder.toNode) w)
  | _ => (.ret none, w)

/-- WorkspaceService.readFile. -/
def readFile (p : String) (w : Workspace) : Option VFileData :=
  match findItemByPath p w with
  | some (.file f) => some f
  | _ => none

/-- The in-place mutation done by `writeFile` on the found file. -/
def setContentSaved (content : String) : VNode → VNode
  | .file f => .file { f with content := content, isSaved := true }
  | n => n

/-- WorkspaceService.writeFile. -/
def writeFile (p content : String) (w : Workspace) : Bool × Workspace :=
  match readFile p w with
  | none => (false, w)
  | some _ => (true, applyUpd p (setContentSaved content) w)

/-- The in-place mutation done by `rename` on the found item: name and
path are overwritten, and for a file the language is re-derived from the
new name. -/
def renameMutation (newName newPath : String) : VNode → VNode
  | .file f => .file { f with name := newName, path := newPath,
                              language := getLanguageFromExtension newName }
  | .folder i _ _ cs => .folder i newName newPath cs

/-- WorkspaceService.rename. -/
def rename (w : Workspace) (path newName : String) : OpOutcome Bool × Workspace :=
  match findItemByPath path w with
  | none => (.ret false, w)
  | some _ =>
    match findParentFolder path w with
    | none => (.ret false, w)
    | some parent =>
      if parent.children.any (fun c => nodeName c == newName && nodePath c != path) then
        (.threw ("\"" ++ newName ++ "\" already exists in this folder"), w)
      else
        let newPath := jsSubstringTo path (jsLastIndexOf path '/' + 1) ++ newName
        (.ret true, applyUpd path (renameMutation newName newPath) w)

/-- `parent.children.splice(index, 1)` at the first child whose path
matches. -/
def removeFirstByPath (p : String) : List VNode → List VNode
  | [] => []
  | c :: rest => if nodePath c = p then rest else c :: removeFirstByPath p rest

def removeChildMutation (p : String) : VNode → VNode
  | .folder i n fp cs => .folder i n fp (removeFirstByPath p cs)
  | n => n

/-- WorkspaceService.delete. -/
def deleteItem (w : Workspace) (path : String) : Bool × Workspace :=
  match findParentFolder path w with
  | none => (false, w)
  | some parent =>
    if parent.children.all (fun c => nodePath c != path) then (false, w)
    else (true, applyUpd (parentPathOf path) (removeChildMutation path) w)

/-! ### Sibling-name uniqueness -/

/-- No two elements of a list share a name with a later element. -/
def namesNodup : List VNode → Bool
  | [] => true
  | c :: rest => rest.all (fun d => nodeName d != nodeName c) && namesNodup rest

mutual

/-- Every folder in the subtree has pairwise-distinct child names. -/
def uniqNames : VNode → Bool
  | .file _ => true
  | .folder _ _ _ cs => namesNodup cs && uniqNamesL cs

def uniqNamesL : List VNode → Bool
  | [] => true
  | c :: rest => uniqNames c && uniqNamesL rest

end

/-- Sibling-name uniqueness for every folder reachable from the root. -/
def siblingNamesUnique (w : Workspace) : Bool :=
  uniqNames w.root.toNode

/-! ### Sanity checks on a small workspace -/

/-- A fresh root folder (ids are arbitrary opaque strings). -/
def emptyRoot : Workspace := ⟨⟨"id-root", "workspace", "/", []⟩⟩

/-! ### In-process JavaScript execution (executeJavaScript)

The function swaps `console.log` for a capturing logger, `eval`s the
code, and on success restores the original sink (line
`console.log = originalLog`).  In the catch handler the source executes
`console.log = console.log` (the original is out of scope there), so the
sink keeps whatever value it had.  The behaviour of `eval` itself is
external; it is modelled by the logs the evaluated code emits and an
optional thrown fault message. -/

/-- The value bound to the `console.log` slot. -/
inductive ConsoleSink where
  | original
  | patched
deriving DecidableEq, Repr

/-- Outcome of `eval(code)`: the `console.log` lines it produced and,
when it throws, the fault message. -/
structure EvalBehaviour where
  logs : List String
  fault : Option String

/-- Normalized result shape `{ output, error?, success }`. -/
structure ExecutionResult where
  output : String
  error : Option String
  success : Bool
deriving DecidableEq, Repr

/-- `String.prototype.replace` with a plain-string pattern replaces only
the first occurrence; `replace(/ReferenceError: /, ...)` has no `g` flag
either, so a first-occurrence replacement is used. -/
def replaceFirstAux (pat rep : List Char) : List Char → List Char
  | [] => []
  | c :: rest =>
    if pat.isPrefixOf (c :: rest) then rep ++ (c :: rest).drop pat.length
    else c :: replaceFirstAux pat rep rest

def replaceFirstSub (pat rep : List Char) (s : String) : String :=
  String.mk (replaceFirstAux pat rep s.data)

/-- The catch-handler rewriting of common JS fault messages. -/
def cleanupJsFault (msg : String) : String :=
  if containsSub "missing ) after argument list".data msg.data then
    "Syntax Error: Missing closing parenthesis"
  else if containsSub "Unexpected token".data msg.data then
    "Syntax Error: Unexpected character or symbol"
  else if containsSub "is not defined".data msg.data then
    replaceFirstSub "ReferenceError: ".data "Error: ".data msg
  else msg

/-- executeJavaScript, with the ambient `console.log` slot made
explicit: the returned `ConsoleSink` is its value after the call. -/
def executeJavaScript (ev : EvalBehaviour) : ExecutionResult × ConsoleSink :=
  match ev.fault with
  | none =>
    let joined := String.intercalate "\n" ev.logs
    ({ output := if joined = "" then "Code executed successfully (no output)" else joined,
       error := none, success := true }, .original)
  | some msg =>
    let errorMessage := cleanupJsFault msg
    ({ output := errorMessage, error := some errorMessage, success := false }, .patched)

/-! ### Editor tab closing (handleTabClose in the IDE page) -/

/-- Tab state of the IDE page: the ordered open-tab list (each tab is a
file snapshot; only `id` matters to closing) and the active tab id. -/
structure TabsState where
  openTabs : List VFileData
  activeTabId : Option String
deriving DecidableEq, Repr

/-- JS array indexing with a possibly negative index. -/
def jsIndex (l : List VFileData) (i : Int) : Option VFileData :=
  if i < 0 then none else l.get? i.toNat

/-- JS `findIndex`: `-1` when no element matches. -/
def jsFindIndexById (tid : String) : List VFileData → Int
  | [] => -1
  | t :: rest =>
    if t.id = tid then 0
    else
      let r := jsFindIndexById tid rest
      if r < 0 then -1 else r + 1

/-- `nextTab?.id || null` (an empty-string id is falsy in JS). -/
def jsIdOrNull : Option VFileData → Option String
  | some t => if t.id = "" then none else some t.id
  | none => none

/-- handleTabClose of the IDE page component. -/
def handleTabClose (st : TabsState) (file : VFileData) : TabsState :=
  let newTabs := st.openTabs.filter (fun t => t.id ≠ file.id)
  if st.activeTabId = some file.id then
    let currentIndex := jsFindIndexById file.id st.openTabs
    let nextTab :=
      match jsIndex newTabs currentIndex with
      | some t => some t
      | none => jsIndex newTabs (currentIndex - 1)
    { openTabs := newTabs, activeTabId := jsIdOrNull nextTab }
  else
    { openTabs := newTabs, activeTabId := st.activeTabId }

/-! ### Output sanitization (cleanErrorMessage / decodeHtmlEntities)

Each `.replace(regex, ...)` pass of the source is modelled by one
left-to-right scan (`runRepl`) driven by a matcher that reports how many
characters the regex matches at the current position.  Every regex of
the source is hand-compiled to such a matcher; greedy stars whose
continuation could overlap the star's character class use an explicit
backtracking star, the others use the maximal run (the classes are
disjoint from what follows, so the greedy semantics coincide). -/

/-- A matcher: number of characters the pattern consumes at the head of
the input, or `none` when it does not match here. -/
abbrev Matcher := List Char → Option Nat

/-- Literal pattern. -/
def litM (pat : List Char) : Matcher := fun s =>
  if pat.isPrefixOf s then some pat.length else none

/-- Case-insensitive literal pattern (`pat` given in lower case). -/
def litCIM (pat : List Char) : Matcher := fun s =>
  if (s.take pat.length).map Char.toLower = pat then some pat.length else none

/-- Maximal run of characters satisfying `p`. -/
def starRun (p : Char → Bool) : List Char → Nat
  | [] => 0
  | c :: rest => if p c then starRun p rest + 1 else 0

/-- `X*` when no backtracking is needed. -/
def starM (p : Char → Bool) : Matcher := fun s => some (starRun p s)

/-- `X+` when no backtracking is needed. -/
def plusM (p : Char → Bool) : Matcher := fun s =>
  let r := starRun p s
  if 1 ≤ r then some r else none

/-- Sequencing of matchers. -/
def seqM (m1 m2 : Matcher) : Matcher := fun s =>
  match m1 s with
  | some k =>
    match m2 (s.drop k) with
    | some k2 => some (k + k2)
    | none => none
  | none => none

/-- Ordered alternation (first alternative wins, as in a regex whose
alternatives cannot both match at one position). -/
def altM (m1 m2 : Matcher) : Matcher := fun s =>
  match m1 s with
  | some k => some k
  | none => m2 s

/-- Greedy `X*` with backtracking into the continuation: try the
longest run first, then shorter prefixes. -/
def backtrackStarFrom (cont : Matcher) (s : List Char) : Nat → Option Nat
  | 0 => cont s
  | k + 1 =>
    match cont (s.drop (k + 1)) with
    | some m => some (k + 1 + m)
    | none => backtrackStarFrom cont s k

def backtrackStar (p : Char → Bool) (cont : Matcher) : Matcher := fun s =>
  backtrackStarFrom cont s (starRun p s)

/-- Character classes used by the source's regexes (ASCII). -/
def nonWS (c : Char) : Bool := !isJsWS c

def notNL (c : Char) : Bool := c != '\n'

def digitC (c : Char) : Bool := c.isDigit

def wordC (c : Char) : Bool := c.isAlpha || c.isDigit || c = '_'

def nlC (c : Char) : Bool := c == '\n'

/-- One global-replace pass (`/g` flag): scan left to right, at each
position consult the matcher (which receives whether the position
starts a line, for `/m`-anchored patterns) and splice in the
replacement.  Structural recursion on a fuel that starts at the input
length; every accepted match consumes at least one character, so the
fuel never runs out on the inputs used below. -/
def runReplFuel (m : Bool → List Char → Option (Nat × List Char)) :
    Nat → Bool → List Char → List Char
  | 0, _, s => s
  | _ + 1, _, [] => []
  | fuel + 1, atLS, c :: rest =>
    match m atLS (c :: rest) with
    | some (k, rep) =>
      if 1 ≤ k then
        rep ++ runReplFuel m fuel ((c :: rest).get? (k - 1) == some '\n') ((c :: rest).drop k)
      else
        c :: runReplFuel m fuel (c == '\n') rest
    | none => c :: runReplFuel m fuel (c == '\n') rest

def runRepl (m : Bool → List Char → Option (Nat × List Char))
    (atLS : Bool) (s : List Char) : List Char :=
  runReplFuel m s.length atLS s

/-- `.replace(pat, rep)` for a plain (non-anchored) pattern. -/
def applyRepl (mm : Matcher) (rep : String) (s : String) : String :=
  String.mk (runRepl (fun _ l => (mm l).map (·, rep.data)) true s.data)

/-- `.replace(pat, rep)` for a `^`-anchored multiline pattern. -/
def applyReplLS (mm : Matcher) (rep : String) (s : String) : String :=
  String.mk (runRepl (fun atLS l => if atLS then (mm l).map (·, rep.data) else none) true s.data)

/-- Literal-string replacement pass (the HTML-entity replaces). -/
def applyLit (pat rep : String) (s : String) : String :=
  applyRepl (litM pat.data) rep s

/-- `:\d+:\d+:` -/
def colonsM : Matcher :=
  seqM (litM ":".data) (seqM (plusM digitC) (seqM (litM ":".data) (seqM (plusM digitC) (litM ":".data))))

/-- `(cpp|java|py|js)` (no alternative is a prefix of another). -/
def srcExtAltM : Matcher :=
  altM (litM "cpp".data) (altM (litM "java".data) (altM (litM "py".data) (litM "js".data)))

/-- `/\/piston\/[^\s\n]+/g` -/
def mPistonPath : Matcher := seqM (litM "/piston/".data) (plusM nonWS)

/-- `/piston/gi` -/
def mPistonCI : Matcher := litCIM "piston".data

/-- `/chmod:[^\n]*/g` -/
def mChmod : Matcher := seqM (litM "chmod:".data) (starM notNL)

/-- `/cannot access[^\n]*/g` -/
def mCannotAccess : Matcher := seqM (litM "cannot access".data) (starM notNL)

/-- `/a\.out[^\n]*/g` -/
def mAOut : Matcher := seqM (litM "a.out".data) (starM notNL)

/-- `/main\.(cpp|java|py|js)(\.\w+)?:\d+:\d+:/g`; the optional group is
greedy, so the variant with the group is tried first. -/
def mMainSrcRef : Matcher :=
  seqM (litM "main.".data)
    (seqM srcExtAltM
      (altM (seqM (litM ".".data) (seqM (plusM wordC) colonsM)) colonsM))

/-- `/[a-zA-Z_][\w]*\.(cpp|java|py|js):\d+:\d+:/g` -/
def mIdentSrcRef : Matcher := fun s =>
  match s with
  | [] => none
  | c :: rest =>
    if c.isAlpha || c = '_' then
      match seqM (starM wordC) (seqM (litM ".".data) (seqM srcExtAltM colonsM)) rest with
      | some k => some (k + 1)
      | none => none
    else none

/-- `^\s*\d+\s*\|` (the shared core of the two `/m` patterns and of the
line-filter test). -/
def mNumBar : Matcher :=
  seqM (starM isJsWS) (seqM (plusM digitC) (seqM (starM isJsWS) (litM "|".data)))

/-- `/Line\s*\d+:\d+:/g` -/
def mLineRef : Matcher :=
  seqM (litM "Line".data)
    (seqM (starM isJsWS) (seqM (plusM digitC) (seqM (litM ":".data) (seqM (plusM digitC) (litM ":".data)))))

/-- `/\/[^\s]*\/include\/[^\s]*:/g` -/
def mIncludePath : Matcher :=
  seqM (litM "/".data)
    (backtrackStar nonWS (seqM (litM "/include/".data) (backtrackStar nonWS (litM ":".data))))

/-- `/\/usr\/[^\s]*:/g` -/
def mUsrPath : Matcher := seqM (litM "/usr/".data) (backtrackStar nonWS (litM ":".data))

/-- `/\/tmp\/[^\s]*:/g` -/
def mTmpPath : Matcher := seqM (litM "/tmp/".data) (backtrackStar nonWS (litM ":".data))

/-- `/note:[^\n]*/g` -/
def mNote : Matcher := seqM (litM "note:".data) (starM notNL)

/-- `[^\n]*operator[^\n]*` — both stars stay within the line and the
match always extends to the end of the line, so it reduces to an
occurrence test on the rest of the line. -/
def mOpToEOL : Matcher := fun s =>
  let line := s.takeWhile notNL
  if containsSub "operator".data line then some line.length else none

/-- `/^\s*\d+\s*\|[^\n]*operator[^\n]*/gm` -/
def mOpLine : Matcher := seqM mNumBar mOpToEOL

/-- `/^\s*\^/` (line-filter test). -/
def mCaret : Matcher := seqM (starM isJsWS) (litM "^".data)

/-- `/\n\s*\n+/g` (blank-line collapsing; `\s` includes `\n`, so the
middle star backtracks). -/
def mBlankRun : Matcher := seqM (litM "\n".data) (backtrackStar isJsWS (plusM nlC))

/-- The line predicate of the `.filter(...)` in cleanErrorMessage. -/
def lineFilterKeep (l : List Char) : Bool :=
  if l.isEmpty then false
  else if containsSub "template".data l then false
  else if containsSub "deduction".data l then false
  else if containsSub "derived from".data l then false
  else if containsSub "candidate".data l then false
  else if containsSub "chmod".data l then false
  else if containsSub "cannot access".data l then false
  else if containsSub "operator<<".data l then false
  else if containsSub "nullptr_t".data l then false
  else if containsSub "conversion".data l then false
  else if l.head? == some '/' then false
  else if (mNumBar l).isSome then false
  else if (mCaret l).isSome then false
  else true

/-- `.join('\n')`. -/
def joinNL : List (List Char) → List Char
  | [] => []
  | [l] => l
  | l :: rest => l ++ '\n' :: joinNL rest

/-- cleanErrorMessage of codeExecutor.ts: the chain of replaces, the
split/trim/filter/join, the blank-line collapse and the final trim, in
source order. -/
def cleanErrorMessage (message : String) : String :=
  if message = "" then ""
  else
    let s := applyLit "&#39;" "'" message
    let s := applyLit "&lt;" "<" s
    let s := applyLit "&gt;" ">" s
    let s := applyLit "&quot;" "\"" s
    let s := applyLit "&amp;" "&" s
    let s := applyRepl mPistonPath "" s
    let s := applyRepl mPistonCI "" s
    let s := applyRepl mChmod "" s
    let s := applyRepl mCannotAccess "" s
    let s := applyRepl mAOut "" s
    let s := applyRepl mMainSrcRef "" s
    let s := applyRepl mIdentSrcRef "" s
    let s := applyReplLS mNumBar "" s
    let s := applyRepl mLineRef "" s
    let s := applyRepl mIncludePath "" s
    let s := applyRepl mUsrPath "" s
    let s := applyRepl mTmpPath "" s
    let s := applyRepl mNote "" s
    let s := applyReplLS mOpLine "" s
    let lines := (splitChar '\n' s.data).map jsTrimChars
    let kept := lines.filter lineFilterKeep
    let joined := joinNL kept
    let collapsed := runRepl (fun _ l => (mBlankRun l).map (·, ['\n'])) true joined
    String.mk (jsTrimChars collapsed)

/-- decodeHtmlEntities of codeExecutor.ts. -/
def decodeHtmlEntities (text : String) : String :=
  let s := applyLit "&lt;" "<" text
  let s := applyLit "&gt;" ">" s
  let s := applyLit "&quot;" "\"" s
  let s := applyLit "&#39;" "'" s
  applyLit "&amp;" "&" s

/-! ### Remote execution response normalization (executeCode)

The fetch / JSON plumbing is IO; what is modelled is the normalization
of the parsed provider response (the code between `await
response.json()` and the returned `ExecutionResult`). -/

/-- The consumed fields of one provider phase. -/
structure PhaseResult where
  stdout : String
  stderr : String
  code : Int
deriving DecidableEq, Repr

/-- The consumed fields of the provider response. -/
structure PistonResponse where
  compile : Option PhaseResult
  run : Option PhaseResult
deriving DecidableEq, Repr

/-- The `else if (result.run)` branch. -/
def runPhaseText : Option PhaseResult → String × Bool
  | some rn =>
    let o1 := if rn.stdout ≠ "" then cleanErrorMessage rn.stdout else ""
    let o2 := if rn.stderr ≠ "" then o1 ++ cleanErrorMessage rn.stderr else o1
    let hasErr := rn.stderr ≠ ""
    if rn.code ≠ 0 ∧ rn.stderr = "" then
      (o2 ++ "\nProcess exited with code " ++ toString rn.code, true)
    else (o2, hasErr)
  | none => ("", false)

def splitLinesStr (s : String) : List String :=
  (splitChar '\n' s.data).map String.mk

/-- executeCode's normalization of a provider response. -/
def normalizeResult (result : PistonResponse) : ExecutionResult :=
  let ot :=
    match result.compile with
    | some cp =>
      if cp.stderr ≠ "" then
        let cleanedError := cleanErrorMessage cp.stderr
        if cleanedError ≠ "" then
          let errorLines := (splitLinesStr cleanedError).filter
            (fun (line : String) => containsSub "error:".data line.data)
          let mainError :=
            match errorLines with
            | e :: _ => e
            | [] => cleanedError
          ("Compilation Error:\n" ++ mainError, true)
        else
          ("Compilation failed - please check your code syntax", true)
      else runPhaseText result.run
    | none => runPhaseText result.run
  let outputText := decodeHtmlEntities ot.1
  { output := if outputText = "" then "No output" else outputText,
    success := !ot.2,
    error := if ot.2 then some "Execution failed" else none }

/-! ### File-creation validation (handleCreateItem of FileExplorer) -/

inductive UICreateOutcome where
  | noop
  | invalidExtension (msg : String)
  | collision (msg : String)
  | created (f : Option VFileData)
deriving DecidableEq, Repr

def allowedExtensions : List String := ["c", "cpp", "cc", "cxx", "java", "js", "py"]

/-- The file branch of handleCreateItem: extension validation, then
`createFile` with the explicitly derived language (a thrown collision is
caught and surfaced as an error toast). -/
def handleCreateFile (w : Workspace) (parentPath name : String) (newId : String) :
    UICreateOutcome × Workspace :=
  if jsTrim name = "" then (.noop, w)
  else
    let ext := jsFileExt name
    if ext = "" ∨ ¬ allowedExtensions.contains ext then
      (.invalidExtension "Only C++, C, Java, Python, and JavaScript files are allowed", w)
    else
      let language := getLanguageFromExtension name
      match createFile w parentPath name (some language) newId with
      | (.threw msg, w') => (.collision msg, w')
      | (.ret f, w') => (.created f, w')

/-! ### Concrete instances used by the claim theorems -/

/-- `startsWith` on the character lists (JS `String.prototype.startsWith`). -/
def strStartsWith (s pre : String) : Bool := pre.data.isPrefixOf s.data

/-- The workspace of the spec's rename-cascade example: a folder `/src`
holding the file `/src/a.py`. -/
def wsC1 : Workspace :=
  ⟨⟨"id-root", "workspace", "/",
    [.folder "id-src" "src" "/src"
      [.file ⟨"id-a", "a.py", "/src/a.py", .python, "", true⟩]]⟩⟩

/-- A concrete workspace with root `/` and one subfolder. -/
def wsC2 : Workspace := ⟨⟨"id-root", "workspace", "/", [.folder "id-src" "src" "/src" []]⟩⟩

/-- Step 1 of a reachable operation sequence: create folder `/a`. -/
def c3Step1 := createFolder emptyRoot "/" "a" "i1"

/-- Step 2: create folder `b` inside `/a`. -/
def c3Step2 := createFolder c3Step1.2 "/a" "b" "i2"

/-- Step 3: rename folder `/a` to `c` (its child keeps the stale path
`/a/b`). -/
def c3Step3 := rename c3Step2.2 "/a" "c"

/-- Step 4: create a fresh folder `/a` at the root. -/
def c3Step4 := createFolder c3Step3.2 "/" "a" "i3"

/-- Step 5: create file `x` inside `/c`. -/
def c3Step5 := createFile c3Step4.2 "/c" "x" none "i4"

/-- Step 6: rename the stale-pathed `/a/b` (which lives inside `/c`) to
`x`; the collision check runs against the fresh empty `/a` folder. -/
def c3Step6 := rename c3Step5.2 "/a/b" "x"

/-- Workspace with files `x` and `y` at the root, used to exhibit the
three collision throws. -/
def wsDup : Workspace :=
  ⟨⟨"r", "workspace", "/",
    [.file ⟨"f1", "x", "/x", .cpp, "", true⟩,
     .file ⟨"f2", "y", "/y", .cpp, "", true⟩]⟩⟩

/-- Workspace with one file, for the C7 instantiation. -/
def wsC7 : Workspace :=
  ⟨⟨"r", "workspace", "/", [.file ⟨"f1", "a.py", "/a.py", .python, "old", false⟩]⟩⟩

/-- The spec's delete example: folder `/src` with three descendant
files (one nested), plus a root file that must survive. -/
def wsC8 : Workspace :=
  ⟨⟨"r", "workspace", "/",
    [.folder "s" "src" "/src"
      [.file ⟨"f1", "a.py", "/src/a.py", .python, "", true⟩,
       .file ⟨"f2", "b.py", "/src/b.py", .python, "", true⟩,
       .folder "sub" "sub" "/src/sub"
         [.file ⟨"f3", "c.py", "/src/sub/c.py", .python, "", true⟩]],
     .file ⟨"f4", "README.md", "/README.md", .cpp, "", true⟩]⟩⟩

/-- A file created with an explicit language override (`python` for a
`.txt` name). -/
def wsC10 : Workspace := (createFile emptyRoot "/" "notes.txt" (some .python) "i1").2

/-- The file wsC10 holds. -/
def fC10 : VFileData := ⟨"i1", "notes.txt", "/notes.txt", .python, DEFAULT_CODE .python, false⟩

/-- A root holding one Folder `/src` (which holds one file), for the
folder half of the rename-to-same-name claim. -/
def wsFold : Workspace :=
  ⟨⟨"id-root", "workspace", "/",
    [.folder "d1" "src" "/src" [.file ⟨"f1", "a.py", "/src/a.py", .python, "", true⟩]]⟩⟩

/-- A provider response with a concrete compile error. -/
def rC6 : PistonResponse := ⟨some ⟨"", "main.cpp:3:5: error: expected ;", 0⟩, none⟩

def tabA : VFileData := ⟨"1", "a.py", "/a.py", .python, "", true⟩

def tabB : VFileData := ⟨"2", "b.py", "/b.py", .python, "", true⟩

def tabC : VFileData := ⟨"3", "c.py", "/c.py", .python, "", true⟩

/-! ### Sanity checks -/

example : (createFolder emptyRoot "/" "a" "i1").1 = .ret (some ⟨"i1", "a", "/a", []⟩) := rfl

example :
    (createFolder emptyRoot "/" "a" "i1").2
      = ⟨⟨"id-root", "workspace", "/", [.folder "i1" "a" "/a" []]⟩⟩ := rfl

example : getLanguageFromExtension "main.py" = .python := rfl

example : getLanguageFromExtension "x.unknown" = .cpp := rfl

example : parentPathOf "/src/a.py" = "/src" := rfl

example : parentPathOf "/src" = "/" := rfl

example : parentPathOf "/" = "/" := rfl

/-! ### Unfolding lemmas

The mutually recursive functions above do not reduce definitionally on
open terms; these restate their defining equations per constructor. -/

theorem findNode_file (p : String) (f : VFileData) : findNode p (.file f) = none := by
  rw [findNode.eq_def]

theorem findNode_folder (p i n fp : String) (cs : List VNode) :
    findNode p (.folder i n fp cs) =
      if fp = p then some (.folder i n fp cs) else findList p cs := by
  rw [findNode.eq_def]

theorem findList_nil (p : String) : findList p [] = none := by
  rw [findList.eq_def]

theorem findList_cons (p : String) (c : VNode) (rest : List VNode) :
    findList p (c :: rest) =
      if nodePath c = p then some c
      else
        match c with
        | .file _ => findList p rest
        | .folder i n fp cs =>
          match findNode p (.folder i n fp cs) with
          | some r => some r
          | none => findList p rest := by
  rw [findList.eq_def]

theorem updNode_file (p : String) (g : VNode → VNode) (f : VFileData) :
    updNode p g (.file f) = none := by
  rw [updNode.eq_def]

theorem updNode_folder (p : String) (g : VNode → VNode) (i n fp : String) (cs : List VNode) :
    updNode p g (.folder i n fp cs) =
      if fp = p then some (g (.folder i n fp cs))
      else
        match updList p g cs with
        | some cs' => some (.folder i n fp cs')
        | none => none := by
  rw [updNode.eq_def]

theorem updList_nil (p : String) (g : VNode → VNode) : updList p g [] = none := by
  rw [updList.eq_def]

theorem updList_cons (p : String) (g : VNode → VNode) (c : VNode) (rest : List VNode) :
    updList p g (c :: rest) =
      if nodePath c = p then some (g c :: rest)
      else
        match c with
        | .file _ =>
          match updList p g rest with
          | some rest' => some (c :: rest')
          | none => none
        | .folder i n fp cs =>
          match updNode p g (.folder i n fp cs) with
          | some c' => some (c' :: rest)
          | none =>
            match updList p g rest with
            | some rest' => some (.folder i n fp cs :: rest')
            | none => none := by
  rw [updList.eq_def]

theorem getAllFilesN_file (f : VFileData) : getAllFilesN (.file f) = [f] := by
  rw [getAllFilesN.eq_def]

theorem getAllFilesN_folder (i n fp : String) (cs : List VNode) :
    getAllFilesN (.folder i n fp cs) = getAllFilesL cs := by
  rw [getAllFilesN.eq_def]

theorem getAllFilesL_nil : getAllFilesL [] = [] := by
  rw [getAllFilesL.eq_def]

theorem getAllFilesL_cons (c : VNode) (rest : List VNode) :
    getAllFilesL (c :: rest) = getAllFilesN c ++ getAllFilesL rest := by
  rw [getAllFilesL.eq_def]

theorem getAllFilesL_append (u v : List VNode) :
    getAllFilesL (u ++ v) = getAllFilesL u ++ getAllFilesL v := by
  induction u with
  | nil => rw [getAllFilesL_nil]; simp
  | cons c rest ih => simp [getAllFilesL_cons, ih]

theorem findList_cons_file (p : String) (f : VFileData) (rest : List VNode) :
    findList p (.file f :: rest) =
      if f.path = p then some (.file f) else findList p rest := by
  rw [findList_cons]; rfl

theorem findList_cons_folder (p i n fp : String) (cs rest : List VNode) :
    findList p (.folder i n fp cs :: rest) =
      if fp = p then some (.folder i n fp cs)
      else
        match findNode p (.folder i n fp cs) with
        | some r => some r
        | none => findList p rest := by
  rw [findList_cons]; rfl

theorem updList_cons_file (p : String) (g : VNode → VNode) (f : VFileData)
    (rest : List VNode) :
    updList p g (.file f :: rest) =
      if f.path = p then some (g (.file f) :: rest)
      else
        match updList p g rest with
        | some rest' => some (.file f :: rest')
        | none => none := by
  rw [updList_cons]; rfl

theorem updList_cons_folder (p : String) (g : VNode → VNode) (i n fp : String)
    (cs rest : List VNode) :
    updList p g (.folder i n fp cs :: rest) =
      if fp = p then some (g (.folder i n fp cs) :: rest)
      else
        match updNode p g (.folder i n fp cs) with
        | some c' => some (c' :: rest)
        | none =>
          match updList p g rest with
          | some rest' => some (.folder i n fp cs :: rest')
          | none => none := by
  rw [updList_cons]; rfl

/-! ### Correspondence between lookup and in-place update

The TypeScript operations mutate the object returned by
`findItemByPath`; functionally, `updNode` rewrites the first node the
search finds.  The lemmas here make that correspondence usable: a found
node's path is the searched path, update succeeds exactly when lookup
does, and an update decomposes the depth-first file listing around the
found node. -/

mutual

theorem findNode_path (p : String) :
    (N : VNode) → (t : VNode) → findNode p N = some t → nodePath t = p
  | .file _, t, h => by rw [findNode_file] at h; cases h
  | .folder i n fp cs, t, h => by
    rw [findNode_folder] at h
    split at h
    · cases h; simpa [nodePath] using ‹fp = p›
    · exact findList_path p cs t h

theorem findList_path (p : String) :
    (cs : List VNode) → (t : VNode) → findList p cs = some t → nodePath t = p
  | [], t, h => by rw [findList_nil] at h; cases h
  | c :: rest, t, h => by
    rw [findList_cons] at h
    split at h
    · cases h; assumption
    · match c, h with
      | .file f, h => exact findList_path p rest t h
      | .folder i n fp cs0, h =>
        revert h
        cases hrec : findNode p (.folder i n fp cs0) with
        | some r =>
          intro h
          simp only [hrec] at h
          cases h
          exact findNode_path p _ _ hrec
        | none =>
          intro h
          simp only [hrec] at h
          exact findList_path p rest t h

end

mutual

theorem updNode_none_iff (p : String) (g : VNode → VNode) :
    (N : VNode) → (updNode p g N = none ↔ findNode p N = none)
  | .file f => by rw [updNode_file, findNode_file]
  | .folder i n fp cs => by
    rw [updNode_folder, findNode_folder]
    split
    · simp
    · have hrec := updList_none_iff p g cs
      cases h1 : updList p g cs with
      | some cs' =>
        have hf : findList p cs ≠ none := fun hfn => by
          have h2 := hrec.mpr hfn
          rw [h1] at h2
          cases h2
        simp [hf]
      | none => simp [hrec.mp h1]

theorem updList_none_iff (p : String) (g : VNode → VNode) :
    (cs : List VNode) → (updList p g cs = none ↔ findList p cs = none)
  | [] => by rw [updList_nil, findList_nil]; simp
  | c :: rest => by
    cases c with
    | file f =>
      rw [updList_cons_file, findList_cons_file]
      split
      · simp
      · have hrec := updList_none_iff p g rest
        cases h1 : updList p g rest with
        | some r =>
          have hf : findList p rest ≠ none := fun hfn => by
            have h2 := hrec.mpr hfn
            rw [h1] at h2
            cases h2
          simp [h1, hf]
        | none => simp [h1, hrec.mp h1]
    | folder i n fp cs0 =>
      rw [updList_cons_folder, findList_cons_folder]
      split
      · simp
      · have hn := updNode_none_iff p g (.folder i n fp cs0)
        cases h2 : updNode p g (.folder i n fp cs0) with
        | some c' =>
          have hne : findNode p (.folder i n fp cs0) ≠ none := fun hfn => by
            have h3 := hn.mpr hfn
            rw [h2] at h3
            cases h3
          cases h3 : findNode p (.folder i n fp cs0) with
          | some r => simp [h2, h3]
          | none => exact absurd h3 hne
        | none =>
          have hrec := updList_none_iff p g rest
          cases h1 : updList p g rest with
          | some r =>
            have hf : findList p rest ≠ none := fun hfn => by
              have h4 := hrec.mpr hfn
              rw [h1] at h4
              cases h4
            simp [h2, hn.mp h2, h1, hf]
          | none => simp [h2, hn.mp h2, h1, hrec.mp h1]

end

mutual

theorem updNode_allFiles (p : String) (g : VNode → VNode) :
    (N : VNode) → (N' : VNode) → updNode p g N = some N' →
    ∃ t A B, findNode p N = some t ∧
      getAllFilesN N = A ++ getAllFilesN t ++ B ∧
      getAllFilesN N' = A ++ getAllFilesN (g t) ++ B
  | .file f, N', h => by rw [updNode_file] at h; cases h
  | .folder i n fp cs, N', h => by
    rw [updNode_folder] at h
    split at h
    · rename_i hp
      cases h
      exact ⟨.folder i n fp cs, [], [], by rw [findNode_folder]; simp [hp], by simp, by simp⟩
    · rename_i hp
      cases hrec : updList p g cs with
      | none => rw [hrec] at h; cases h
      | some cs' =>
        rw [hrec] at h
        cases h
        obtain ⟨t, A, B, hfind, h1, h2⟩ := updList_allFiles p g cs cs' hrec
        exact ⟨t, A, B, by rw [findNode_folder]; simp [hp, hfind],
          by simpa [getAllFilesN_folder] using h1,
          by simpa [getAllFilesN_folder] using h2⟩

theorem updList_allFiles (p : String) (g : VNode → VNode) :
    (cs cs' : List VNode) → updList p g cs = some cs' →
    ∃ t A B, findList p cs = some t ∧
      getAllFilesL cs = A ++ getAllFilesN t ++ B ∧
      getAllFilesL cs' = A ++ getAllFilesN (g t) ++ B
  | [], cs', h => by rw [updList_nil] at h; cases h
  | c :: rest, cs', h => by
    cases c with
    | file f =>
      rw [updList_cons_file] at h
      rw [findList_cons_file]
      split at h
      · rename_i hp
        cases h
        rw [if_pos hp]
        exact ⟨.file f, [], getAllFilesL rest, rfl,
          by simp [getAllFilesL_cons], by simp [getAllFilesL_cons]⟩
      · rename_i hp
        rw [if_neg hp]
        revert h
        cases hrec : updList p g rest with
        | none => intro h; cases h
        | some rest' =>
          intro h
          cases h
          obtain ⟨t, A, B, hfind, h1, h2⟩ := updList_allFiles p g rest rest' hrec
          exact ⟨t, getAllFilesN (.file f) ++ A, B, hfind,
            by simp [getAllFilesL_cons, h1],
            by simp [getAllFilesL_cons, h2]⟩
    | folder i n fp cs0 =>
      rw [updList_cons_folder] at h
      rw [findList_cons_folder]
      split at h
      · rename_i hp
        cases h
        rw [if_pos hp]
        exact ⟨.folder i n fp cs0, [], getAllFilesL rest, rfl,
          by simp [getAllFilesL_cons], by simp [getAllFilesL_cons]⟩
      · rename_i hp
        rw [if_neg hp]
        revert h
        cases hn : updNode p g (.folder i n fp cs0) with
        | some c' =>
          intro h
          cases h
          obtain ⟨t, A, B, hfind, h1, h2⟩ := updNode_allFiles p g _ c' hn
          simp only [hfind]
          exact ⟨t, A, B ++ getAllFilesL rest, rfl,
            by simp [getAllFilesL_cons, h1],
            by simp [getAllFilesL_cons, h2]⟩
        | none =>
          have hfn : findNode p (.folder i n fp cs0) = none :=
            (updNode_none_iff p g _).mp hn
          simp only [hfn]
          cases hrec : updList p g rest with
          | none => intro h; cases h
          | some rest' =>
            intro h
            cases h
            obtain ⟨t, A, B, hfind, h1, h2⟩ := updList_allFiles p g rest rest' hrec
            exact ⟨t, getAllFilesN (.folder i n fp cs0) ++ A, B, hfind,
              by simp [getAllFilesL_cons, h1],
              by simp [getAllFilesL_cons, h2]⟩

end

/-- A mutation that maps folders to folders, applied through `applyUpd`
after a successful lookup, splits the file listing around the found
node. -/
theorem applyUpd_allFiles (p : String) (g : VNode → VNode) (w : Workspace) (t : VNode)
    (hfind : findItemByPath p w = some t)
    (hg : ∀ i n fp cs, ∃ i2 n2 fp2 cs2, g (.folder i n fp cs) = .folder i2 n2 fp2 cs2) :
    ∃ A B, getAllFiles w = A ++ getAllFilesN t ++ B ∧
      getAllFiles (applyUpd p g w) = A ++ getAllFilesN (g t) ++ B := by
  have hfind' : findNode p w.root.toNode = some t := hfind
  have hupd : updNode p g w.root.toNode ≠ none := fun hno => by
    rw [(updNode_none_iff p g _).mp hno] at hfind'
    cases hfind'
  cases hN : updNode p g w.root.toNode with
  | none => exact absurd hN hupd
  | some N' =>
    obtain ⟨t', A, B, hf2, h1, h2⟩ := updNode_allFiles p g _ N' hN
    have ht : t' = t := Option.some_inj.mp (hf2.symm.trans hfind')
    subst ht
    have hAll : getAllFiles w = getAllFilesN w.root.toNode := by
      simp [getAllFiles, VFolderData.toNode, getAllFilesN_folder]
    refine ⟨A, B, by rw [hAll]; exact h1, ?_⟩
    have hshape : ∃ i2 n2 fp2 cs2, N' = VNode.folder i2 n2 fp2 cs2 := by
      revert hN
      rw [VFolderData.toNode, updNode_folder]
      split
      · intro hN
        obtain ⟨i2, n2, fp2, cs2, hgfold⟩ := hg w.root.id w.root.name w.root.path w.root.children
        cases hN
        exact ⟨i2, n2, fp2, cs2, hgfold⟩
      · cases updList p g w.root.children with
        | none => intro hN; cases hN
        | some cs' =>
          intro hN
          simp only at hN
          cases hN
          exact ⟨_, _, _, _, rfl⟩
    obtain ⟨i2, n2, fp2, cs2, rfl⟩ := hshape
    have happ : applyUpd p g w = ⟨⟨i2, n2, fp2, cs2⟩⟩ := by
      rw [applyUpd, hN]
    rw [happ]
    have : getAllFiles (⟨⟨i2, n2, fp2, cs2⟩⟩ : Workspace) = getAllFilesL cs2 := rfl
    rw [this]
    rw [getAllFilesN_folder] at h2
    exact h2

/-! ### Shared lemmas about lookup, update and parents -/

theorem findItemByPath_root (p : String) (w : Workspace) (hroot : w.root.path = p) :
    findItemByPath p w = some w.root.toNode := by
  rw [findItemByPath, VFolderData.toNode, findNode_folder, if_pos hroot]

theorem findParentFolder_of_root (path : String) (w : Workspace)
    (hroot : w.root.path = parentPathOf path) :
    findParentFolder path w = some w.root := by
  rw [findParentFolder, findItemByPath_root (parentPathOf path) w hroot]
  rfl

/-! ### Claim C1 -/

/-- C1: the claim asserts the path invariant and that renaming folder
`/src` (containing `/src/a.py`) to `lib` recomputes the descendant's
path to `/lib/a.py`.  The code does no cascade: the rename succeeds and
updates only the folder's own name and path, and the descendant file
keeps the stale path `/src/a.py` (so the path invariant
`child.path = parent.path + '/' + child.name` is broken: the parent is
now `/lib`). -/
theorem renameDoesNotCascade :
    (rename wsC1 "/src" "lib").1 = .ret true ∧
    findItemByPath "/lib" (rename wsC1 "/src" "lib").2
      = some (.folder "id-src" "lib" "/lib"
          [.file ⟨"id-a", "a.py", "/src/a.py", .python, "", true⟩]) ∧
    getAllFiles (rename wsC1 "/src" "lib").2
      = [⟨"id-a", "a.py", "/src/a.py", .python, "", true⟩] ∧
    "/src/a.py" ≠ "/lib" ++ "/" ++ "a.py" := by
  exact ⟨rfl, rfl, rfl, by decide⟩

/-! ### Claim C2 -/

/-- C2 counterexample: the claim says `rename('/', newName)` never
changes the root's name or path; in the code it does — `rename('/',
'foo')` returns true and leaves the root named `foo` with path
`/foo`. -/
theorem renameRootChangesRoot :
    (rename wsC2 "/" "foo").1 = .ret true ∧
    (rename wsC2 "/" "foo").2.root.name = "foo" ∧
    (rename wsC2 "/" "foo").2.root.path = "/foo" := ⟨rfl, rfl, rfl⟩

/-- C2 amended: `delete('/')` indeed returns false and leaves the tree
unchanged (given the root path is `/` and no direct child carries the
path `/`), so the root cannot be deleted; but the root is not protected
from renaming: `rename('/', n)` succeeds whenever no child is named `n`
and changes the root's name to `n` and its path to `'/' + n`. -/
theorem rootDeleteProtectedButRenameNot (w : Workspace) (n : String)
    (hroot : w.root.path = "/")
    (hchild : ∀ c ∈ w.root.children, nodePath c ≠ "/")
    (hname : ∀ c ∈ w.root.children, nodeName c ≠ n) :
    deleteItem w "/" = (false, w) ∧
    (rename w "/" n).1 = .ret true ∧
    (rename w "/" n).2.root.name = n ∧
    (rename w "/" n).2.root.path = "/" ++ n := by
  have hfind : findItemByPath "/" w = some w.root.toNode := findItemByPath_root "/" w hroot
  have hparent : findParentFolder "/" w = some w.root :=
    findParentFolder_of_root "/" w hroot
  have hall : w.root.children.all (fun c => nodePath c != "/") = true := by
    rw [List.all_eq_true]
    intro c hc
    simpa using hchild c hc
  have hany : w.root.children.any (fun c => nodeName c == n && nodePath c != "/") = false := by
    rw [List.any_eq_false]
    intro c hc
    simp [hname c hc]
  refine ⟨?_, ?_⟩
  · rw [deleteItem, hparent]
    simp only [hall, if_true]
  · have hupd : updNode "/" (renameMutation n (jsSubstringTo "/" (jsLastIndexOf "/" '/' + 1) ++ n))
        w.root.toNode = some (.folder w.root.id n ("/" ++ n) w.root.children) := by
      rw [VFolderData.toNode, updNode_folder, if_pos hroot]
      rfl
    have hgoal : rename w "/" n
        = (.ret true, ⟨⟨w.root.id, n, "/" ++ n, w.root.children⟩⟩) := by
      rw [rename, hfind, hparent]
      simp only [hany, Bool.false_eq_true, if_false, applyUpd, hupd]
    rw [hgoal]
    exact ⟨rfl, rfl, rfl⟩

/-- C2 amended, instantiated: at a concrete workspace the root survives
`delete('/')` unchanged, and `rename('/', "foo")` renames it. -/
theorem rootDeleteProtectedButRenameNot_witness :
    deleteItem wsC2 "/" = (false, wsC2) ∧
    (rename wsC2 "/" "foo").1 = .ret true ∧
    (rename wsC2 "/" "foo").2.root.name = "foo" ∧
    (rename wsC2 "/" "foo").2.root.path = "/" ++ "foo" :=
  rootDeleteProtectedButRenameNot wsC2 "foo" rfl (by decide) (by decide)

/-! ### Claim C5 -/

/-- C5: the claim says the `console.log` sink is restored after
execution both on success and on a thrown fault.  On success it is
(`console.log = originalLog`), but the catch handler executes
`console.log = console.log` — the original is out of scope there — so
after a fault the sink is still the patched logger, contradicting the
code's own `// Restore console.log` comment. -/
theorem consoleSinkNotRestoredOnFault :
    (executeJavaScript ⟨[], some "boom"⟩).2 = .patched ∧
    (executeJavaScript ⟨["x"], none⟩).2 = .original ∧
    ConsoleSink.patched ≠ ConsoleSink.original := ⟨rfl, rfl, by decide⟩

/-! ### Claim C3 -/

/-- C3 counterexample: sibling-name uniqueness is not an invariant.  A
sequence of six successful operations from a fresh root produces a
folder (`/c`) with two children named `x`: rename locates the node by
path but checks the collision against the folder found at the path's
parent prefix, which after step 3 is a different folder than the node's
actual parent. -/
theorem renameCanCreateDuplicateSiblings :
    (∃ f, c3Step1.1 = .ret (some f)) ∧
    (∃ f, c3Step2.1 = .ret (some f)) ∧
    c3Step3.1 = .ret true ∧
    (∃ f, c3Step4.1 = .ret (some f)) ∧
    (∃ f, c3Step5.1 = .ret (some f)) ∧
    c3Step6.1 = .ret true ∧
    siblingNamesUnique c3Step5.2 = true ∧
    siblingNamesUnique c3Step6.2 = false ∧
    findItemByPath "/c" c3Step6.2
      = some (.folder "i1" "c" "/c"
          [.folder "i2" "x" "/a/x" [],
           .file ⟨"i4", "x", "/c/x", .cpp, DEFAULT_CODE .cpp, false⟩]) :=
  ⟨⟨_, rfl⟩, ⟨_, rfl⟩, rfl, ⟨_, rfl⟩, ⟨_, rfl⟩, rfl, rfl, rfl, rfl⟩

theorem createFile_threw (w : Workspace) (pp nm newId : String)
    (lang : Option CompilerLanguage) (e : String) :
    (createFile w pp nm lang newId).1 = .threw e → (createFile w pp nm lang newId).2 = w := by
  intro h
  cases hf : findItemByPath pp w with
  | none => simp [createFile, hf] at h
  | some t =>
    cases t with
    | file f => simp [createFile, hf] at h
    | folder i n fp cs =>
      by_cases hc : cs.any (fun c => nodeName c == nm) = true
      · simp [createFile, hf, hc]
      · simp [createFile, hf, hc] at h

theorem createFolder_threw (w : Workspace) (pp nm newId : String) (e : String) :
    (createFolder w pp nm newId).1 = .threw e → (createFolder w pp nm newId).2 = w := by
  intro h
  cases hf : findItemByPath pp w with
  | none => simp [createFolder, hf] at h
  | some t =>
    cases t with
    | file f => simp [createFolder, hf] at h
    | folder i n fp cs =>
      by_cases hc : cs.any (fun c => nodeName c == nm) = true
      · simp [createFolder, hf, hc]
      · simp [createFolder, hf, hc] at h

theorem rename_threw (w : Workspace) (rp rn : String) (e : String) :
    (rename w rp rn).1 = .threw e → (rename w rp rn).2 = w := by
  intro h
  cases hf : findItemByPath rp w with
  | none => simp [rename, hf] at h
  | some t =>
    cases hp : findParentFolder rp w with
    | none => simp [rename, hf, hp] at h
    | some parent =>
      by_cases hc : parent.children.any (fun c => nodeName c == rn && nodePath c != rp) = true
      · simp [rename, hf, hp, hc]
      · simp [rename, hf, hp, hc] at h

/-- C3 amended: the failure half of the claim holds — every collision
error is thrown before any mutation, so a createFile / createFolder /
rename call that throws returns the workspace unchanged (and unsaved) —
but the invariant half does not: sibling uniqueness can be broken by a
successful rename (see the counterexample). -/
theorem collisionThrowLeavesTreeUnchanged (w : Workspace)
    (pp nm newId rp rn : String) (lang : Option CompilerLanguage) (e1 e2 e3 : String) :
    ((createFile w pp nm lang newId).1 = .threw e1 → (createFile w pp nm lang newId).2 = w) ∧
    ((createFolder w pp nm newId).1 = .threw e2 → (createFolder w pp nm newId).2 = w) ∧
    ((rename w rp rn).1 = .threw e3 → (rename w rp rn).2 = w) :=
  ⟨createFile_threw w pp nm newId lang e1,
   createFolder_threw w pp nm newId e2,
   rename_threw w rp rn e3⟩

/-- C3 amended, instantiated: each of the three operations throws a
collision at `wsDup` and returns it unchanged. -/
theorem collisionThrowLeavesTreeUnchanged_witness :
    (createFile wsDup "/" "x" none "i9").2 = wsDup ∧
    (createFolder wsDup "/" "x" "i9").2 = wsDup ∧
    (rename wsDup "/y" "x").2 = wsDup := by
  have h := collisionThrowLeavesTreeUnchanged wsDup "/" "x" "i9" "/y" "x" none
    "File \"x\" already exists in this folder"
    "Folder \"x\" already exists in this folder"
    "\"x\" already exists in this folder"
  exact ⟨h.1 rfl, h.2.1 rfl, h.2.2 rfl⟩

/-! ### Claim C4 -/

/-- C4: language inference and creation-time extension validation.
`createFile` with no explicit language derives it from the extension
table, so creating `main.py` under the root yields a python file; and
the FileExplorer creation path rejects any name whose extension is
outside the allowed list — `x.unknown` draws the validation error toast
and the workspace is untouched, so no file is created with an
unrecognized extension. -/
theorem languageInferredAndUnknownExtensionRejected
    (w wb : Workspace) (pp newId newId2 : String)
    (hroot : wb.root.path = "/")
    (hname : ∀ c ∈ wb.root.children, nodeName c ≠ "main.py") :
    handleCreateFile w pp "x.unknown" newId
      = (.invalidExtension "Only C++, C, Java, Python, and JavaScript files are allowed", w) ∧
    (createFile wb "/" "main.py" none newId2).1
      = .ret (some ⟨newId2, "main.py", "/main.py", .python, DEFAULT_CODE .python, false⟩) := by
  constructor
  · rw [handleCreateFile]
    rw [if_neg (by decide), if_pos (by decide)]
  · have hfind : findItemByPath "/" wb = some wb.root.toNode := findItemByPath_root "/" wb hroot
    have hany : wb.root.children.any (fun c => nodeName c == "main.py") = false := by
      rw [List.any_eq_false]
      intro c hc
      simp [hname c hc]
    rw [createFile, hfind]
    simp only [VFolderData.toNode, hany, Bool.false_eq_true, if_false]
    rfl

/-- C4, instantiated at a fresh root. -/
theorem languageInferredAndUnknownExtensionRejected_witness :
    handleCreateFile emptyRoot "/" "x.unknown" "i1"
      = (.invalidExtension "Only C++, C, Java, Python, and JavaScript files are allowed", emptyRoot) ∧
    (createFile emptyRoot "/" "main.py" none "i2").1
      = .ret (some ⟨"i2", "main.py", "/main.py", .python, DEFAULT_CODE .python, false⟩) :=
  languageInferredAndUnknownExtensionRejected emptyRoot emptyRoot "/" "i1" "i2" rfl (by decide)

/-! ### Claims C7 and C8 -/

theorem readFile_some (p : String) (w : Workspace) (f : VFileData)
    (h : readFile p w = some f) : findItemByPath p w = some (.file f) := by
  revert h
  rw [readFile]
  cases hx : findItemByPath p w with
  | none => intro h; cases h
  | some t =>
    cases t with
    | file f0 => intro h; cases h; rfl
    | folder i n fp cs => intro h; cases h

/-- C7: writeFile returns false and leaves the workspace unchanged when
the path does not resolve to a File (readFile is `none` exactly on a
missing path or a folder), and when it resolves to File `f` it returns
true and the resulting tree's file listing differs from the original
only at `f`, which gets the new content and `isSaved = true` — every
other file (the `A`/`B` surroundings) is untouched. -/
theorem writeFileSpec (p content : String) (w : Workspace) :
    (readFile p w = none → writeFile p content w = (false, w)) ∧
    (∀ f, readFile p w = some f →
      ∃ w' A B, writeFile p content w = (true, w') ∧
        getAllFiles w = A ++ [f] ++ B ∧
        getAllFiles w' = A ++ [{ f with content := content, isSaved := true }] ++ B) := by
  constructor
  · intro h
    rw [writeFile, h]
  · intro f hf
    have hfind : findItemByPath p w = some (.file f) := readFile_some p w f hf
    have hg : ∀ i n fp cs, ∃ i2 n2 fp2 cs2,
        setContentSaved content (.folder i n fp cs) = .folder i2 n2 fp2 cs2 :=
      fun i n fp cs => ⟨i, n, fp, cs, rfl⟩
    obtain ⟨A, B, h1, h2⟩ :=
      applyUpd_allFiles p (setContentSaved content) w (.file f) hfind hg
    refine ⟨applyUpd p (setContentSaved content) w, A, B, ?_, ?_, ?_⟩
    · rw [writeFile, hf]
    · rw [h1, getAllFilesN_file]
    · rw [h2]
      rw [show setContentSaved content (VNode.file f)
          = .file { f with content := content, isSaved := true } from rfl]
      rw [getAllFilesN_file]

/-- C7, instantiated: writing a missing path fails without change, and
writing `/a.py` succeeds with exactly that file updated. -/
theorem writeFileSpec_witness :
    writeFile "/nope" "new" wsC7 = (false, wsC7) ∧
    ∃ w' A B, writeFile "/a.py" "new" wsC7 = (true, w') ∧
      getAllFiles wsC7 = A ++ [⟨"f1", "a.py", "/a.py", .python, "old", false⟩] ++ B ∧
      getAllFiles w' = A ++ [⟨"f1", "a.py", "/a.py", .python, "new", true⟩] ++ B :=
  ⟨(writeFileSpec "/nope" "new" wsC7).1 rfl,
   (writeFileSpec "/a.py" "new" wsC7).2 ⟨"f1", "a.py", "/a.py", .python, "old", false⟩ rfl⟩

theorem findParentFolder_toNode (p : String) (w : Workspace) (parent : VFolderData)
    (hp : findParentFolder p w = some parent) :
    findItemByPath (parentPathOf p) w = some parent.toNode := by
  revert hp
  rw [findParentFolder]
  cases hq : findItemByPath (parentPathOf p) w with
  | none => intro hp; cases hp
  | some t =>
    cases t with
    | file f => intro hp; cases hp
    | folder i n fp cs =>
      intro hp
      cases hp
      rfl

theorem removeChildMutation_folder (p i n fp : String) (cs : List VNode) :
    removeChildMutation p (.folder i n fp cs) = .folder i n fp (removeFirstByPath p cs) := rfl

theorem removeFirstByPath_decomp (p : String) (cs : List VNode)
    (hc : ¬ cs.all (fun c => nodePath c != p) = true) :
    ∃ u rem v, cs = u ++ rem :: v ∧ nodePath rem = p ∧
      removeFirstByPath p cs = u ++ v := by
  induction cs with
  | nil => simp at hc
  | cons c rest ih =>
    by_cases hcp : nodePath c = p
    · exact ⟨[], c, rest, rfl, hcp, by simp [removeFirstByPath, hcp]⟩
    · have hrest : ¬ rest.all (fun c => nodePath c != p) = true := by
        intro hr
        exact hc (by simp [List.all_cons, hr, hcp])
      obtain ⟨u, rem, v, hcs, hrem, hremove⟩ := ih hrest
      exact ⟨c :: u, rem, v, by rw [hcs]; rfl, hrem,
        by simp [removeFirstByPath, hcp, hremove]⟩

/-- C8: a successful delete removes the whole subtree at the deleted
path in one operation: the file listing of the old workspace splits as
`A ++ (files of the removed node) ++ B` and the new listing is exactly
`A ++ B` — for a folder with N descendant files, all N are gone from
getAllFiles at once. -/
theorem deleteRemovesSubtree (p : String) (w w' : Workspace)
    (h : deleteItem w p = (true, w')) :
    ∃ rem A B, nodePath rem = p ∧
      getAllFiles w = A ++ getAllFilesN rem ++ B ∧
      getAllFiles w' = A ++ B := by
  revert h
  cases hp : findParentFolder p w with
  | none => intro h; simp [deleteItem, hp] at h
  | some parent =>
    by_cases hall : parent.children.all (fun c => nodePath c != p) = true
    · intro h
      simp [deleteItem, hp, hall] at h
    · intro h
      have hw' : w' = applyUpd (parentPathOf p) (removeChildMutation p) w := by
        simp [deleteItem, hp, hall] at h
        exact h.symm
      obtain ⟨u, rem, v, hcs, hrem, hremove⟩ := removeFirstByPath_decomp p parent.children hall
      have hfind : findItemByPath (parentPathOf p) w = some parent.toNode :=
        findParentFolder_toNode p w parent hp
      have hg : ∀ i n fp cs, ∃ i2 n2 fp2 cs2,
          removeChildMutation p (.folder i n fp cs) = .folder i2 n2 fp2 cs2 :=
        fun i n fp cs => ⟨i, n, fp, removeFirstByPath p cs, rfl⟩
      obtain ⟨A, B, h1, h2⟩ :=
        applyUpd_allFiles (parentPathOf p) (removeChildMutation p) w parent.toNode hfind hg
      refine ⟨rem, A ++ getAllFilesL u, getAllFilesL v ++ B, hrem, ?_, ?_⟩
      · rw [h1, VFolderData.toNode, getAllFilesN_folder, hcs, getAllFilesL_append,
          getAllFilesL_cons]
        simp [List.append_assoc]
      · rw [hw', h2, VFolderData.toNode, removeChildMutation_folder, getAllFilesN_folder,
          hremove, getAllFilesL_append]
        simp [List.append_assoc]

/-- C8, instantiated: deleting `/src` removes its three descendant
files from getAllFiles in one call. -/
theorem deleteRemovesSubtree_witness :
    ∃ rem A B, nodePath rem = "/src" ∧
      getAllFiles wsC8 = A ++ getAllFilesN rem ++ B ∧
      getAllFiles (deleteItem wsC8 "/src").2 = A ++ B :=
  deleteRemovesSubtree "/src" wsC8 (deleteItem wsC8 "/src").2 rfl

/-! ### Claim C9 -/

theorem jsFindIndexById_spec (tid : String) (f : VFileData) (hf : f.id = tid) :
    ∀ (A B : List VFileData), (∀ t ∈ A, t.id ≠ tid) →
      jsFindIndexById tid (A ++ f :: B) = (A.length : Int)
  | [], B, _ => by simp [jsFindIndexById, hf]
  | a :: rest, B, hA => by
    have ha : ¬ a.id = tid := hA a (by simp)
    have ih := jsFindIndexById_spec tid f hf rest B (fun t ht => hA t (by simp [ht]))
    simp [jsFindIndexById, ha, ih]

theorem jsIndex_neg (l : List VFileData) (i : Int) (h : i < 0) : jsIndex l i = none := by
  rw [jsIndex, if_pos h]

theorem jsIndex_append_length (A : List VFileData) (b : VFileData) (B' : List VFileData) :
    jsIndex (A ++ b :: B') (A.length : Int) = some b := by
  rw [jsIndex, if_neg (by omega), Int.toNat_natCast, List.get?_eq_getElem?,
    List.getElem?_append_right (le_refl A.length)]
  simp

theorem jsIndex_self_length (A : List VFileData) :
    jsIndex A (A.length : Int) = none := by
  rw [jsIndex, if_neg (by omega), Int.toNat_natCast, List.get?_eq_getElem?]
  simp

theorem jsIndex_getLast (A : List VFileData) (hA : A ≠ []) :
    jsIndex A ((A.length : Int) - 1) = A.getLast? := by
  have hpos : 1 ≤ A.length := List.length_pos.mpr hA
  have h1 : (A.length : Int) - 1 = ((A.length - 1 : Nat) : Int) := by omega
  rw [jsIndex, h1, if_neg (by omega), Int.toNat_natCast, List.get?_eq_getElem?,
    List.getLast?_eq_getElem?]

/-- C9: closing a tab removes it from the ordered tab list (the tab ids
are pairwise distinct and non-empty, as produced by `generateId`).  If
the closed tab was active, the new active tab is the one now occupying
the closed tab's former index — the head of the suffix `B` —, else the
one at the previous index — the last element of the prefix `A` —, else
none; if the closed tab was not active, the active tab id is
unchanged. -/
theorem tabCloseSpec (A B : List VFileData) (file : VFileData) (st : TabsState)
    (hA : ∀ t ∈ A, t.id ≠ file.id) (hB : ∀ t ∈ B, t.id ≠ file.id)
    (hids : ∀ t ∈ A ++ B, t.id ≠ "")
    (htabs : st.openTabs = A ++ file :: B) :
    (handleTabClose st file).openTabs = A ++ B ∧
    (st.activeTabId = some file.id →
      (handleTabClose st file).activeTabId
        = (match B.head? with
           | some t => some t.id
           | none =>
             match A.getLast? with
             | some t => some t.id
             | none => none)) ∧
    (st.activeTabId ≠ some file.id →
      (handleTabClose st file).activeTabId = st.activeTabId) := by
  have h1 : ∀ (L : List VFileData), (∀ t ∈ L, t.id ≠ file.id) →
      L.filter (fun t => !decide (t.id = file.id)) = L := fun L hL =>
    List.filter_eq_self.mpr (fun a ha => by simp [hL a ha])
  have hfilter : (A ++ file :: B).filter (fun t => !decide (t.id = file.id)) = A ++ B := by
    rw [List.filter_append, List.filter_cons]
    simp [h1 A hA, h1 B hB]
  have hfilter2 : (A ++ file :: B).filter (fun t => decide (t.id ≠ file.id)) = A ++ B := by
    simpa using hfilter
  have hidxmain := jsFindIndexById_spec file.id file rfl A B hA
  refine ⟨?_, ?_, ?_⟩
  · by_cases hact : st.activeTabId = some file.id <;>
      simp [handleTabClose, htabs, hfilter, hact]
  · intro hact
    simp only [handleTabClose, htabs, hact, if_pos rfl, hfilter2, hidxmain]
    cases B with
    | cons b B' =>
      have hb : b.id ≠ "" := hids b (by simp)
      rw [jsIndex_append_length]
      simp [jsIdOrNull, hb]
    | nil =>
      simp only [List.append_nil, jsIndex_self_length]
      cases hAe : A with
      | nil =>
        simp [jsIndex, jsIdOrNull]
      | cons a A' =>
        rw [← hAe]
        have hne : A ≠ [] := by rw [hAe]; simp
        rw [jsIndex_getLast A hne]
        cases hlast : A.getLast? with
        | none => exact absurd (List.getLast?_eq_none_iff.mp hlast) hne
        | some last =>
          have hmem : last ∈ A := by
            obtain ⟨hne2, heq⟩ :=
              List.mem_getLast?_eq_getLast (show last ∈ A.getLast? from hlast)
            rw [heq]
            exact List.getLast_mem hne2
          have hl : last.id ≠ "" := hids last (by simp [hmem])
          simp [jsIdOrNull, hl]
  · intro hact
    simp [handleTabClose, htabs, hfilter, hact]

/-- C9, instantiated: closing active middle tab `tabB` keeps `[tabA,
tabC]` open and activates `tabC`, the tab now at the closed index. -/
theorem tabCloseSpec_witness :
    (handleTabClose ⟨[tabA, tabB, tabC], some "2"⟩ tabB).openTabs = [tabA] ++ [tabC] ∧
    (handleTabClose ⟨[tabA, tabB, tabC], some "2"⟩ tabB).activeTabId = some "3" := by
  have h1 := tabCloseSpec [tabA] [tabC] tabB ⟨[tabA, tabB, tabC], some "2"⟩
    (by decide) (by decide) (by decide) rfl
  refine ⟨h1.1, ?_⟩
  rw [h1.2.1 rfl]
  rfl

/-! ### Claim C10 -/

mutual

theorem updNode_id (p : String) (g : VNode → VNode) :
    (N : VNode) → (N' : VNode) → updNode p g N = some N' →
    (∀ t, findNode p N = some t → g t = t) → N' = N
  | .file f, N', h, _ => by rw [updNode_file] at h; cases h
  | .folder i n fp cs, N', h, hid => by
    rw [updNode_folder] at h
    split at h
    · rename_i hp
      cases h
      exact hid (.folder i n fp cs) (by rw [findNode_folder, if_pos hp])
    · rename_i hp
      revert h
      cases hrec : updList p g cs with
      | none => intro h; cases h
      | some cs' =>
        intro h
        cases h
        have hcs := updList_id p g cs cs' hrec (fun t ht => hid t (by
          rw [findNode_folder, if_neg hp]; exact ht))
        rw [hcs]

theorem updList_id (p : String) (g : VNode → VNode) :
    (cs : List VNode) → (cs' : List VNode) → updList p g cs = some cs' →
    (∀ t, findList p cs = some t → g t = t) → cs' = cs
  | [], cs', h, _ => by rw [updList_nil] at h; cases h
  | c :: rest, cs', h, hid => by
    cases c with
    | file f =>
      rw [updList_cons_file] at h
      split at h
      · rename_i hp
        cases h
        have hgc := hid (.file f) (by rw [findList_cons_file, if_pos hp])
        rw [hgc]
      · rename_i hp
        revert h
        cases hrec : updList p g rest with
        | none => intro h; cases h
        | some rest' =>
          intro h
          cases h
          have hr := updList_id p g rest rest' hrec (fun t ht => hid t (by
            rw [findList_cons_file, if_neg hp]; exact ht))
          rw [hr]
    | folder i n fp cs0 =>
      rw [updList_cons_folder] at h
      split at h
      · rename_i hp
        cases h
        have hgc := hid (.folder i n fp cs0) (by rw [findList_cons_folder, if_pos hp])
        rw [hgc]
      · rename_i hp
        revert h
        cases hn : updNode p g (.folder i n fp cs0) with
        | some c' =>
          intro h
          cases h
          cases hr : findNode p (.folder i n fp cs0) with
          | none =>
            have hcon := (updNode_none_iff p g _).mpr hr
            rw [hn] at hcon
            cases hcon
          | some r =>
            have hc' := updNode_id p g _ c' hn (fun t ht => by
              rw [hr] at ht
              cases ht
              exact hid _ (by rw [findList_cons_folder, if_neg hp, hr]))
            rw [hc']
        | none =>
          have hfn : findNode p (.folder i n fp cs0) = none :=
            (updNode_none_iff p g _).mp hn
          cases hrec : updList p g rest with
          | none => intro h; cases h
          | some rest' =>
            intro h
            cases h
            have hr := updList_id p g rest rest' hrec (fun t ht => hid t (by
              rw [findList_cons_folder, if_neg hp, hfn]; exact ht))
            rw [hr]

end

/-- C10: renaming any existing node to its own current name succeeds
instead of hitting the collision error, because the sibling check
excludes nodes at the renamed path (`child.path !== path`); the node's
name and path come out unchanged (sibling hypothesis: same-named
siblings only at the renamed path itself; `hbase`: the path's basename
is the node's name).  A Folder is left completely untouched — the
resulting workspace is the old one — while a File keeps its place in
the depth-first file listing with name, path, content and saved flag
unchanged but has its language unconditionally re-derived from the
extension, overwriting any explicitly supplied creation language
(unrecognized extensions fall back to cpp inside
getLanguageFromExtension). -/
theorem renameToSameNameSpec (w : Workspace) (path : String)
    (t : VNode) (parent : VFolderData)
    (hfind : findItemByPath path w = some t)
    (hp : findParentFolder path w = some parent)
    (hsib : ∀ c ∈ parent.children, nodeName c = nodeName t → nodePath c = path)
    (hbase : jsSubstringTo path (jsLastIndexOf path '/' + 1) ++ nodeName t = path) :
    ∃ w', rename w path (nodeName t) = (.ret true, w') ∧
      (∀ i n fp cs, t = .folder i n fp cs → w' = w) ∧
      (∀ f, t = .file f → ∃ A B,
        getAllFiles w = A ++ [f] ++ B ∧
        getAllFiles w' = A ++ [{ f with language := getLanguageFromExtension f.name }] ++ B) := by
  have hnp : nodePath t = path := findNode_path path w.root.toNode t hfind
  have hany : parent.children.any
      (fun c => nodeName c == nodeName t && nodePath c != path) = false := by
    rw [List.any_eq_false]
    intro c hc
    by_cases hcn : nodeName c = nodeName t
    · simp [hcn, hsib c hc hcn]
    · simp [hcn]
  refine ⟨applyUpd path
      (renameMutation (nodeName t)
        (jsSubstringTo path (jsLastIndexOf path '/' + 1) ++ nodeName t)) w,
    ?_, ?_, ?_⟩
  · rw [rename, hfind, hp]
    simp only [hany, Bool.false_eq_true, if_false]
  · intro i n fp cs ht
    subst ht
    have hfind' : findNode path w.root.toNode = some (.folder i n fp cs) := hfind
    have hfp : fp = path := by simpa [nodePath] using hnp
    have hb : jsSubstringTo path (jsLastIndexOf path '/' + 1) ++ n = path := by
      simpa [nodeName] using hbase
    have hg : renameMutation (nodeName (VNode.folder i n fp cs))
        (jsSubstringTo path (jsLastIndexOf path '/' + 1) ++
          nodeName (VNode.folder i n fp cs))
        (.folder i n fp cs) = .folder i n fp cs := by
      simp only [renameMutation, nodeName]
      rw [hb, hfp]
    cases hN : updNode path
        (renameMutation (nodeName (VNode.folder i n fp cs))
          (jsSubstringTo path (jsLastIndexOf path '/' + 1) ++
            nodeName (VNode.folder i n fp cs)))
        w.root.toNode with
    | none =>
      rw [(updNode_none_iff path _ _).mp hN] at hfind'
      cases hfind'
    | some N' =>
      have hNid : N' = w.root.toNode :=
        updNode_id path _ w.root.toNode N' hN (fun t' ht' => by
          have ht2 : t' = .folder i n fp cs := Option.some_inj.mp (ht'.symm.trans hfind')
          rw [ht2]
          exact hg)
      rw [applyUpd, hN, hNid, VFolderData.toNode]
  · intro f ht
    subst ht
    have hfp2 : f.path = path := by simpa [nodePath] using hnp
    have hb2 : jsSubstringTo path (jsLastIndexOf path '/' + 1) ++ f.name = path := by
      simpa [nodeName] using hbase
    have hgfold : ∀ i n2 fp cs, ∃ i2 n3 fp2 cs2,
        renameMutation (nodeName (VNode.file f))
          (jsSubstringTo path (jsLastIndexOf path '/' + 1) ++ nodeName (VNode.file f))
          (.folder i n2 fp cs) = .folder i2 n3 fp2 cs2 :=
      fun i n2 fp cs => ⟨_, _, _, _, rfl⟩
    obtain ⟨A, B, h1, h2⟩ := applyUpd_allFiles path
      (renameMutation (nodeName (VNode.file f))
        (jsSubstringTo path (jsLastIndexOf path '/' + 1) ++ nodeName (VNode.file f)))
      w (.file f) hfind hgfold
    have hmut : renameMutation (nodeName (VNode.file f))
        (jsSubstringTo path (jsLastIndexOf path '/' + 1) ++ nodeName (VNode.file f))
        (.file f) = .file { f with language := getLanguageFromExtension f.name } := by
      cases f with
      | mk fid fname fpath flang fcontent fsaved =>
        simp only [renameMutation, nodeName]
        simp only at hb2 hfp2
        simp [hb2, hfp2]
    refine ⟨A, B, ?_, ?_⟩
    · rw [h1, getAllFilesN_file]
    · rw [h2, hmut, getAllFilesN_file]

/-- C10, instantiated on both node kinds: renaming File `/notes.txt` to
its current name succeeds and replaces the overridden python language
with the extension-derived fallback cpp; renaming Folder `/src` to its
current name succeeds and returns the workspace unchanged. -/
theorem renameToSameNameSpec_witness :
    (∃ w' A B, rename wsC10 "/notes.txt" "notes.txt" = (.ret true, w') ∧
      getAllFiles wsC10 = A ++ [fC10] ++ B ∧
      getAllFiles w' = A ++ [{ fC10 with language := getLanguageFromExtension fC10.name }] ++ B) ∧
    rename wsFold "/src" "src" = (.ret true, wsFold) ∧
    fC10.language = .python ∧
    getLanguageFromExtension fC10.name = .cpp := by
  have hfile := renameToSameNameSpec wsC10 "/notes.txt" (.file fC10)
    ⟨"id-root", "workspace", "/", [.file fC10]⟩ rfl rfl (by decide) rfl
  have hfold := renameToSameNameSpec wsFold "/src"
    (.folder "d1" "src" "/src" [.file ⟨"f1", "a.py", "/src/a.py", .python, "", true⟩])
    ⟨"id-root", "workspace", "/",
      [.folder "d1" "src" "/src" [.file ⟨"f1", "a.py", "/src/a.py", .python, "", true⟩]]⟩
    rfl rfl (by decide) rfl
  obtain ⟨w1, hr1, _, hf1⟩ := hfile
  obtain ⟨A, B, hA, hB⟩ := hf1 fC10 rfl
  obtain ⟨w2, hr2, hfold2, _⟩ := hfold
  have hw2 : w2 = wsFold := hfold2 "d1" "src" "/src"
    [.file ⟨"f1", "a.py", "/src/a.py", .python, "", true⟩] rfl
  refine ⟨⟨w1, A, B, hr1, hA, hB⟩, ?_, rfl, rfl⟩
  rw [hw2] at hr2
  exact hr2

/-! ### Claim C6 -/

theorem litM_cons_ne (p0 : Char) (pt : List Char) (c : Char) (t : List Char) (h : c ≠ p0) :
    litM (p0 :: pt) (c :: t) = none := by
  simp [litM, List.isPrefixOf]
  intro hcp
  exact absurd hcp.symm h

theorem runReplFuel_succ (m : Bool → List Char → Option (Nat × List Char))
    (fuel : Nat) (atLS : Bool) (c : Char) (rest : List Char) :
    runReplFuel m (fuel + 1) atLS (c :: rest) =
      match m atLS (c :: rest) with
      | some (k, rep) =>
        if 1 ≤ k then
          rep ++ runReplFuel m fuel ((c :: rest).get? (k - 1) == some '\n') ((c :: rest).drop k)
        else c :: runReplFuel m fuel (c == '\n') rest
      | none => c :: runReplFuel m fuel (c == '\n') rest := rfl

theorem runReplFuel_flag (m : Bool → List Char → Option (Nat × List Char))
    (hm : ∀ a b l, m a l = m b l) :
    ∀ (fuel : Nat) (a b : Bool) (s : List Char),
      runReplFuel m fuel a s = runReplFuel m fuel b s
  | 0, _, _, _ => rfl
  | _ + 1, _, _, [] => rfl
  | fuel + 1, a, b, c :: rest => by
    rw [runReplFuel_succ, runReplFuel_succ, hm a b]

/-- A replacement pass whose pattern can only begin with `p0` copies any
`p0`-free prefix verbatim. -/
theorem runReplFuel_skip (m : Bool → List Char → Option (Nat × List Char)) (p0 : Char)
    (hm : ∀ a b l, m a l = m b l)
    (hnone : ∀ (a : Bool) (c : Char) (t : List Char), c ≠ p0 → m a (c :: t) = none) :
    ∀ (P : List Char), (∀ c ∈ P, c ≠ p0) → ∀ (a : Bool) (s : List Char),
      runReplFuel m (P ++ s).length a (P ++ s) = P ++ runReplFuel m s.length true s
  | [], _, a, s => by
    simpa using runReplFuel_flag m hm s.length a true s
  | c :: P', hP, a, s => by
    have hc : c ≠ p0 := hP c (by simp)
    have ih := runReplFuel_skip m p0 hm hnone P' (fun d hd => hP d (by simp [hd]))
      (c == '\n') s
    simp only [List.cons_append, List.length_cons]
    rw [runReplFuel_succ, hnone a c _ hc, ih]

theorem applyLit_skipAmp (pat rep : String) (pt : List Char) (hpat : pat.data = '&' :: pt)
    (P rest : String) (hP : ∀ c ∈ P.data, c ≠ '&') :
    applyLit pat rep (P ++ rest) = P ++ applyLit pat rep rest := by
  have hnone : ∀ (a : Bool) (c : Char) (t : List Char), c ≠ '&' →
      (fun (_ : Bool) l => (litM pat.data l).map (·, rep.data)) a (c :: t) = none := by
    intro a c t hc
    simp only [hpat, litM_cons_ne '&' pt c t hc, Option.map_none']
  have hskip := runReplFuel_skip
    (fun (_ : Bool) l => (litM pat.data l).map (·, rep.data)) '&'
    (fun _ _ _ => rfl) hnone P.data hP true rest.data
  rw [applyLit, applyRepl, applyLit, applyRepl, runRepl, runRepl]
  apply String.ext
  simp only [String.data_append]
  exact hskip

/-- All five entity patterns of decodeHtmlEntities begin with `&`, so a
`&`-free prefix passes through the decoder untouched. -/
theorem decodeHtmlEntities_skipAmp (P rest : String) (hP : ∀ c ∈ P.data, c ≠ '&') :
    decodeHtmlEntities (P ++ rest) = P ++ decodeHtmlEntities rest := by
  rw [decodeHtmlEntities, decodeHtmlEntities]
  rw [applyLit_skipAmp "&lt;" "<" "lt;".data rfl P rest hP]
  rw [applyLit_skipAmp "&gt;" ">" "gt;".data rfl P _ hP]
  rw [applyLit_skipAmp "&quot;" "\"" "quot;".data rfl P _ hP]
  rw [applyLit_skipAmp "&#39;" "'" "#39;".data rfl P _ hP]
  rw [applyLit_skipAmp "&amp;" "&" "amp;".data rfl P _ hP]

theorem strStartsWith_compErr (X : String) :
    strStartsWith ("Compilation Error:\n" ++ X) "Compilation Error:" = true := by
  rw [strStartsWith, List.isPrefixOf_iff_prefix, String.data_append]
  rw [show ("Compilation Error:\n" : String).data
      = ("Compilation Error:" : String).data ++ ['\n'] from rfl]
  rw [List.append_assoc]
  exact List.prefix_append _ _

theorem append_ne_empty_left (P X : String) (hP : P.data ≠ []) : P ++ X ≠ "" := by
  intro h
  have h2 : (P ++ X).data = [] := by rw [h]
  rw [String.data_append] at h2
  exact hP (List.append_eq_nil.mp h2).1

/-- C6 counterexample: the claim demands `output` start with
`"Compilation Error:"` for every non-empty compile stderr, but when the
sanitization pass empties the stderr (here the single word `template`,
erased by the line filter) the code emits the fixed message
`"Compilation failed - please check your code syntax"` instead. -/
theorem compileErrorPrefixCounterexample :
    ("template" : String) ≠ "" ∧
    (normalizeResult ⟨some ⟨"", "template", 0⟩, some ⟨"hi", "", 0⟩⟩).success = false ∧
    (normalizeResult ⟨some ⟨"", "template", 0⟩, some ⟨"hi", "", 0⟩⟩).output
      = "Compilation failed - please check your code syntax" ∧
    strStartsWith "Compilation failed - please check your code syntax" "Compilation Error:"
      = false :=
  ⟨by decide, rfl, rfl, rfl⟩

/-- C6 amended: for every response whose compile phase has a non-empty
stderr the normalized result has `success = false` (with the generic
error marker) and the run phase is not consulted at all; the output
starts with `"Compilation Error:"` whenever the sanitized stderr is
non-empty, and otherwise is the fixed fallback message. -/
theorem compileStderrSpec (r : PistonResponse) (cp : PhaseResult)
    (hc : r.compile = some cp) (hs : cp.stderr ≠ "") :
    (normalizeResult r).success = false ∧
    (normalizeResult r).error = some "Execution failed" ∧
    (∀ rn, normalizeResult { r with run := rn } = normalizeResult r) ∧
    (cleanErrorMessage cp.stderr ≠ "" →
      strStartsWith (normalizeResult r).output "Compilation Error:" = true) ∧
    (cleanErrorMessage cp.stderr = "" →
      (normalizeResult r).output = "Compilation failed - please check your code syntax") := by
  have hrun : ∀ rn, normalizeResult { r with run := rn } = normalizeResult r := by
    intro rn
    simp only [normalizeResult, hc]
    rw [if_pos hs]
    rw [if_pos hs]
  by_cases hclean : cleanErrorMessage cp.stderr = ""
  · have hnr : normalizeResult r =
        { output := "Compilation failed - please check your code syntax",
          error := some "Execution failed", success := false } := by
      simp only [normalizeResult, hc]
      rw [if_pos hs, hclean]
      rfl
    refine ⟨by rw [hnr], by rw [hnr], hrun, fun h => absurd hclean h, fun _ => by rw [hnr]⟩
  · obtain ⟨M, hM⟩ : ∃ M, normalizeResult r =
        { output := "Compilation Error:\n" ++ decodeHtmlEntities M,
          error := some "Execution failed", success := false } := by
      refine ⟨(match (splitLinesStr (cleanErrorMessage cp.stderr)).filter
          (fun (line : String) => containsSub "error:".data line.data) with
        | e :: _ => e
        | [] => cleanErrorMessage cp.stderr), ?_⟩
      simp only [normalizeResult, hc]
      rw [if_pos hs, if_pos hclean]
      simp only []
      rw [decodeHtmlEntities_skipAmp "Compilation Error:\n" _ (by decide)]
      rw [if_neg (append_ne_empty_left _ _ (by decide))]
      rfl
    refine ⟨by rw [hM], by rw [hM], hrun, fun _ => by rw [hM]; exact strStartsWith_compErr _,
      fun h => absurd h hclean⟩

/-- C6 amended, instantiated on a concrete compiler diagnostic. -/
theorem compileStderrSpec_witness :
    (normalizeResult rC6).success = false ∧
    strStartsWith (normalizeResult rC6).output "Compilation Error:" = true := by
  have h := compileStderrSpec rC6 ⟨"", "main.cpp:3:5: error: expected ;", 0⟩ rfl (by decide)
  exact ⟨h.1, h.2.2.2.1 (by decide)⟩

end StrikeIDE
